import Mathlib

/-!
Shallow embedding of `scripts/gen_trending_subriff.py`.

The script queries a web API once per (size filter, sort period) combination,
tallies how often each subreddit name appears across the calls, and returns the
top `FINAL_OUTPUT_LIMIT` names sorted by descending tally count.

Modelling decisions:

* A Python `Counter` is an insertion-ordered association list
  `List (String × Nat)`: `dict` update keeps the position of existing keys and
  appends new keys at the end, which `counterIncr` mirrors.
* `Counter.most_common(n)` is `heapq.nlargest(n, items, key=itemgetter(1))`,
  documented and implemented as equivalent to
  `sorted(items, key=itemgetter(1), reverse=True)[:n]`, a stable descending
  sort followed by truncation; it is modelled by `List.insertionSort` with the
  relation `countGE` (which is stable in exactly the same sense) plus `take`.
* The network is abstracted as an oracle
  `fetch : String → String → Except String (List String)`; `Except.error e`
  models any exception raised inside the `try` block (network error,
  `raise_for_status`, JSON decode failure), carrying the exception text that
  the warning message interpolates.
* The warning printed by the `except` branch is collected in a list instead of
  being written to a stream.
* An entry of the JSON array `data["subreddits"]` is a `Subreddit` record:
  `displayName` models `sub.get("displayName", "")` and each `Bool` field
  models the truthiness of the corresponding `sub.get(...)` (an absent key is
  falsy).
* Lines 41–46 of the source are not syntactically valid Python (the statement
  `nsfw = "true"` sits inside the parenthesised `if` condition).  The model
  reads it as the closest expression semantics, the assignment-expression
  reading `sub.get("isNsfw") or ... or (nsfw := "true")`: the three flag reads
  short-circuit, so `nsfw` is assigned `"true"` exactly when all three flags
  are falsy, and in that case the assigned value `"true"` is truthy, making
  the whole condition truthy.  Hence the condition is truthy on every entry
  and every entry is skipped by `continue`.  The alternative reading that
  simply drops the unparseable assignment gives the same function: entries
  with an NSFW flag are skipped, and on surviving paths `nsfw` still holds
  `""` so the guard `if nsfw:` never appends.  Both readings make
  `fetch_subreddits` return the empty list.
-/

/-- Endpoint URL, line 13 of the source; the pure model never dereferences it. -/
def BASE_URL : String := "https://subriff.com/Home/GetSubreddits"

/-- Size-filter values queried, line 14 of the source. -/
def SIZE_FILTERS : List String := ["medium-small", "medium", "large", "xlarge"]

/-- Sort-period values queried, line 15 of the source. -/
def SORT_PERIODS : List String := ["daily", "weekly"]

/-- Truncation limit for the final list, line 16 of the source. -/
def FINAL_OUTPUT_LIMIT : Nat := 35

/-- One parsed entry of the JSON field `data["subreddits"]`.  `displayName`
models `sub.get("displayName", "")`; each `Bool` field models the truthiness
of the corresponding `sub.get(...)` with an absent key read as falsy. -/
structure Subreddit where
  displayName : String
  isNsfw : Bool
  internal_IsNsfw : Bool
  suggested_Internal_IsNsfw : Bool

/-- Value held by the local variable `nsfw` once the condition of lines 41–46
has been evaluated.  It is initialised to `""` on line 40; under the
assignment-expression reading of the malformed condition, short-circuit
evaluation reaches `nsfw = "true"` exactly when all three NSFW flag reads are
falsy. -/
def nsfwFlagValue (sub : Subreddit) : String :=
  if sub.isNsfw || sub.internal_IsNsfw || sub.suggested_Internal_IsNsfw then "" else "true"

/-- Truth value of the condition guarding `continue` (lines 41–46): the three
NSFW flag reads, with the value of the trailing assignment expression as last
disjunct (a non-empty string is truthy). -/
def skipCondition (sub : Subreddit) : Bool :=
  sub.isNsfw || sub.internal_IsNsfw || sub.suggested_Internal_IsNsfw ||
    (nsfwFlagValue sub != "")

/-- Body of the `for sub in data.get("subreddits", [])` loop, lines 38–51:
`continue` when `skipCondition` holds, otherwise read the display name and
append it only when it is non-empty and the `nsfw` local is truthy. -/
def processEntry (sub : Subreddit) : Option String :=
  if skipCondition sub then none
  else
    let name := sub.displayName
    if name != "" then
      if nsfwFlagValue sub != "" then some name else none
    else none

/-- Pure part of `fetch_subreddits` (lines 37–52): the list `names` built from
the parsed entries.  The HTTP and JSON stages are abstracted by the caller. -/
def fetch_subreddits_names (subs : List Subreddit) : List String :=
  subs.filterMap processEntry

/-- Insertion-ordered model of `collections.Counter` keyed by name. -/
abbrev Counter := List (String × Nat)

/-- `counter[name]` with default 0, i.e. `self.get(name, 0)`. -/
def tallyCount (c : Counter) (name : String) : Nat :=
  match c.find? (fun p => p.1 == name) with
  | some p => p.2
  | none => 0

/-- One step of `Counter.update`: `self[name] = self.get(name, 0) + 1`.  An
existing key keeps its position; a new key is appended at the end, as in a
Python dict. -/
def counterIncr (c : Counter) (name : String) : Counter :=
  if c.any (fun p => p.1 == name) then
    c.map (fun p => if p.1 == name then (p.1, p.2 + 1) else p)
  else c ++ [(name, 1)]

/-- `appearances.update(names)`, line 63 of the source. -/
def counterUpdate (c : Counter) (names : List String) : Counter :=
  names.foldl counterIncr c

/-- Sort relation used by `most_common`: descending appearance count.  Ties
are permitted in both directions, so a stable sort keeps tied entries in
accumulation order. -/
def countGE (a b : String × Nat) : Prop := b.2 ≤ a.2

instance : DecidableRel countGE := fun a b => Nat.decLe b.2 a.2

instance : IsTotal (String × Nat) countGE := ⟨fun a b => Nat.le_total b.2 a.2⟩

instance : IsTrans (String × Nat) countGE := ⟨fun _ _ _ h1 h2 => Nat.le_trans h2 h1⟩

/-- `Counter.most_common(n)`: stable sort by count descending, then first `n`
entries. -/
def most_common (n : Nat) (c : Counter) : Counter :=
  (List.insertionSort countGE c).take n

/-- Python f-string of line 65: `f"Warning: Failed to fetch {sf}/{sb}: {e}"`. -/
def warnMsg (size_filter sort_by err : String) : String :=
  "Warning: Failed to fetch " ++ size_filter ++ "/" ++ sort_by ++ ": " ++ err

/-- Body of the nested loop of lines 59–65 for one (size filter, sort period)
combination: on success update the tally, on failure record the warning. -/
def fetchStep (fetch : String → String → Except String (List String))
    (st : Counter × List String) (combo : String × String) : Counter × List String :=
  match fetch combo.1 combo.2 with
  | Except.ok names => (counterUpdate st.1 names, st.2)
  | Except.error e => (st.1, st.2 ++ [warnMsg combo.1 combo.2 e])

/-- Nested loop of lines 59–65: outer loop over `SIZE_FILTERS`, inner loop
over `SORT_PERIODS`, starting from the empty `Counter()` of line 57 and no
warnings printed yet. -/
def fetchLoop (fetch : String → String → Except String (List String)) :
    Counter × List String :=
  SIZE_FILTERS.foldl
    (fun st size_filter =>
      SORT_PERIODS.foldl (fun st sort_by => fetchStep fetch st (size_filter, sort_by)) st)
    ([], [])

/-- The tally `appearances` as it stands after the loop of lines 59–65. -/
def blendedTally (fetch : String → String → Except String (List String)) : Counter :=
  (fetchLoop fetch).1

/-- The warning lines printed by the loop of lines 59–65, in order. -/
def blendedWarnings (fetch : String → String → Except String (List String)) : List String :=
  (fetchLoop fetch).2

/-- `generate_blended_trending` (lines 55–69), parametrised by the fetch
oracle: tally, `most_common(FINAL_OUTPUT_LIMIT)`, then discard the counts. -/
def generate_blended_trending (fetch : String → String → Except String (List String)) :
    List String :=
  (most_common FINAL_OUTPUT_LIMIT (blendedTally fetch)).map Prod.fst

/-- The eight (size filter, sort period) combinations in the order the nested
loop visits them. -/
def allCombos : List (String × String) :=
  SIZE_FILTERS.flatMap (fun size_filter => SORT_PERIODS.map (fun sort_by => (size_filter, sort_by)))

/-- Warning produced by one combination, if its fetch fails. -/
def warnOf (fetch : String → String → Except String (List String))
    (combo : String × String) : Option String :=
  match fetch combo.1 combo.2 with
  | Except.ok _ => none
  | Except.error e => some (warnMsg combo.1 combo.2 e)

/-- Tally-only view of one loop iteration. -/
def tallyStep (fetch : String → String → Except String (List String))
    (c : Counter) (combo : String × String) : Counter :=
  match fetch combo.1 combo.2 with
  | Except.ok names => counterUpdate c names
  | Except.error _ => c

/-- The tally after the first `k` of the eight combinations have been
processed (an intermediate state of the loop of lines 59–65). -/
def tallyAfter (fetch : String → String → Except String (List String)) (k : Nat) : Counter :=
  (allCombos.take k).foldl (tallyStep fetch) []

/-- The fetch oracle with every failing call replaced by an empty success:
used to state that a failing call contributes nothing. -/
def recoverFetch (fetch : String → String → Except String (List String)) :
    String → String → Except String (List String) :=
  fun size_filter sort_by =>
    match fetch size_filter sort_by with
    | Except.ok names => Except.ok names
    | Except.error _ => Except.ok []

/-- The fetch oracle obtained from a parsed-response oracle by running the
literal filtering loop of `fetch_subreddits` on each successful response. -/
def fetchOfResponses (responses : String → String → Except String (List Subreddit)) :
    String → String → Except String (List String) :=
  fun size_filter sort_by => (responses size_filter sort_by).map fetch_subreddits_names

/-! ### Facts about the literal filtering loop -/

lemma skipCondition_eq_true (sub : Subreddit) : skipCondition sub = true := by
  by_cases h : (sub.isNsfw || sub.internal_IsNsfw || sub.suggested_Internal_IsNsfw) = true
  · simp [skipCondition, h]
  · simp [skipCondition, nsfwFlagValue, h]

lemma processEntry_eq_none (sub : Subreddit) : processEntry sub = none := by
  simp [processEntry, skipCondition_eq_true]

lemma fetch_subreddits_names_eq_nil (subs : List Subreddit) :
    fetch_subreddits_names subs = [] := by
  induction subs with
  | nil => rfl
  | cons sub subs ih =>
    rw [fetch_subreddits_names] at ih ⊢
    rw [List.filterMap_cons, processEntry_eq_none, ih]

/-! ### Counter lemmas -/

lemma counterUpdate_nil (c : Counter) : counterUpdate c [] = c := rfl

lemma tallyCount_cons (p : String × Nat) (c : Counter) (x : String) :
    tallyCount (p :: c) x = if p.1 = x then p.2 else tallyCount c x := by
  by_cases h : p.1 = x <;> simp [tallyCount, List.find?_cons, h]

lemma counterIncr_cons_ne (p : String × Nat) (c : Counter) (n : String) (h : p.1 ≠ n) :
    counterIncr (p :: c) n = p :: counterIncr c n := by
  by_cases ha : c.any (fun q => q.1 == n) <;>
    simp [counterIncr, ha, h]

lemma tallyCount_map_bump (c : Counter) (n x : String) (hx : x ≠ n) :
    tallyCount (c.map fun p => if p.1 == n then (p.1, p.2 + 1) else p) x = tallyCount c x := by
  induction c with
  | nil => rfl
  | cons q c ih =>
    by_cases hq : q.1 = n
    · have h1 : (if (q.1 == n) = true then (q.1, q.2 + 1) else q) = (q.1, q.2 + 1) := by
        simp [hq]
      have hqx : ¬ (q.1 = x) := fun hcontra => hx (hcontra.symm.trans hq)
      rw [List.map_cons, h1, tallyCount_cons, tallyCount_cons, if_neg hqx, if_neg hqx, ih]
    · have h1 : (if (q.1 == n) = true then (q.1, q.2 + 1) else q) = q := by
        simp [hq]
      rw [List.map_cons, h1, tallyCount_cons, tallyCount_cons]
      by_cases hqx : q.1 = x
      · rw [if_pos hqx, if_pos hqx]
      · rw [if_neg hqx, if_neg hqx, ih]

lemma tallyCount_counterIncr (c : Counter) (n x : String) :
    tallyCount (counterIncr c n) x =
      if x = n then tallyCount c x + 1 else tallyCount c x := by
  induction c with
  | nil =>
    by_cases hx : x = n
    · subst hx; simp [counterIncr, tallyCount, List.find?]
    · have hnx : (n == x) = false := by
        simp [Ne.symm hx]
      simp [counterIncr, tallyCount, List.find?, hnx, hx]
  | cons q c ih =>
    by_cases hq : q.1 = n
    · have hel : counterIncr (q :: c) n =
          (q.1, q.2 + 1) :: (c.map fun p => if p.1 == n then (p.1, p.2 + 1) else p) := by
        simp [counterIncr, hq]
      rw [hel]
      by_cases hx : x = n
      · subst hx
        have hqx : q.1 = x := hq
        rw [tallyCount_cons, tallyCount_cons, if_pos hqx, if_pos hqx, if_pos rfl]
      · have hqx : ¬ (q.1 = x) := fun hcontra => hx (hcontra.symm.trans hq)
        rw [tallyCount_cons, tallyCount_cons, if_neg hqx, if_neg hqx,
          tallyCount_map_bump c n x hx, if_neg hx]
    · rw [counterIncr_cons_ne q c n hq]
      by_cases hqx : q.1 = x
      · have hxn : ¬ (x = n) := fun hcontra => hq (hqx.trans hcontra)
        rw [tallyCount_cons, tallyCount_cons, if_pos hqx, if_pos hqx, if_neg hxn]
      · rw [tallyCount_cons, tallyCount_cons, if_neg hqx, if_neg hqx, ih]

lemma tallyCount_counterUpdate (c : Counter) (names : List String) (x : String) :
    tallyCount (counterUpdate c names) x = tallyCount c x + names.count x := by
  induction names generalizing c with
  | nil => simp [counterUpdate]
  | cons n ns ih =>
    have hstep : counterUpdate c (n :: ns) = counterUpdate (counterIncr c n) ns := rfl
    rw [hstep, ih, tallyCount_counterIncr]
    by_cases hx : x = n <;> simp [List.count_cons, hx] <;> omega

lemma keys_counterIncr (c : Counter) (n : String) :
    (counterIncr c n).map Prod.fst =
      if c.any (fun p => p.1 == n) then c.map Prod.fst else c.map Prod.fst ++ [n] := by
  by_cases h : c.any (fun p => p.1 == n)
  · rw [if_pos h]
    have : counterIncr c n = c.map (fun p => if p.1 == n then (p.1, p.2 + 1) else p) := by
      rw [counterIncr, if_pos h]
    rw [this, List.map_map]
    refine List.map_congr_left ?_
    intro p _
    by_cases hp : p.1 = n <;> simp [hp]
  · rw [if_neg h]
    have : counterIncr c n = c ++ [(n, 1)] := by
      rw [counterIncr, if_neg h]
    rw [this, List.map_append]
    rfl

lemma keys_nodup_counterIncr (c : Counter) (n : String)
    (h : (c.map Prod.fst).Nodup) : ((counterIncr c n).map Prod.fst).Nodup := by
  rw [keys_counterIncr]
  by_cases ha : c.any (fun p => p.1 == n)
  · rw [if_pos ha]; exact h
  · rw [if_neg ha]
    have hn : n ∉ c.map Prod.fst := by
      intro hmem
      obtain ⟨p, hp, hpn⟩ := List.mem_map.mp hmem
      exact ha (List.any_eq_true.mpr ⟨p, hp, by simp [hpn]⟩)
    simp [List.nodup_append, h, hn]

lemma keys_nodup_counterUpdate (c : Counter) (names : List String)
    (h : (c.map Prod.fst).Nodup) : ((counterUpdate c names).map Prod.fst).Nodup := by
  induction names generalizing c with
  | nil => exact h
  | cons n ns ih => exact ih (counterIncr c n) (keys_nodup_counterIncr c n h)

/-! ### Loop lemmas -/

lemma fetchLoop_eq_foldl (fetch : String → String → Except String (List String)) :
    fetchLoop fetch = allCombos.foldl (fetchStep fetch) ([], []) := rfl

lemma foldl_fetchStep_fst (fetch : String → String → Except String (List String)) :
    ∀ (combos : List (String × String)) (st : Counter × List String),
      (combos.foldl (fetchStep fetch) st).1 = combos.foldl (tallyStep fetch) st.1 := by
  intro combos
  induction combos with
  | nil => intro st; rfl
  | cons cb combos ih =>
    intro st
    rw [List.foldl_cons, List.foldl_cons, ih]
    rcases hf : fetch cb.1 cb.2 with e | ns <;> simp [fetchStep, tallyStep, hf]

lemma foldl_fetchStep_snd (fetch : String → String → Except String (List String)) :
    ∀ (combos : List (String × String)) (st : Counter × List String),
      (combos.foldl (fetchStep fetch) st).2 = st.2 ++ combos.filterMap (warnOf fetch) := by
  intro combos
  induction combos with
  | nil => intro st; simp
  | cons cb combos ih =>
    intro st
    rw [List.foldl_cons, ih, List.filterMap_cons]
    rcases hf : fetch cb.1 cb.2 with e | ns <;> simp [fetchStep, warnOf, hf]

lemma blendedTally_eq_foldl (fetch : String → String → Except String (List String)) :
    blendedTally fetch = allCombos.foldl (tallyStep fetch) [] := by
  rw [blendedTally, fetchLoop_eq_foldl, foldl_fetchStep_fst]

lemma blendedWarnings_eq_filterMap (fetch : String → String → Except String (List String)) :
    blendedWarnings fetch = allCombos.filterMap (warnOf fetch) := by
  rw [blendedWarnings, fetchLoop_eq_foldl, foldl_fetchStep_snd]
  rfl

lemma keys_nodup_foldl_tallyStep (fetch : String → String → Except String (List String)) :
    ∀ (combos : List (String × String)) (c : Counter),
      (c.map Prod.fst).Nodup → ((combos.foldl (tallyStep fetch) c).map Prod.fst).Nodup := by
  intro combos
  induction combos with
  | nil => intro c h; exact h
  | cons cb combos ih =>
    intro c h
    rw [List.foldl_cons]
    apply ih
    rcases hf : fetch cb.1 cb.2 with e | ns
    · simpa [tallyStep, hf] using h
    · simpa [tallyStep, hf] using keys_nodup_counterUpdate c ns h

lemma keys_nodup_blendedTally (fetch : String → String → Except String (List String)) :
    ((blendedTally fetch).map Prod.fst).Nodup := by
  rw [blendedTally_eq_foldl]
  exact keys_nodup_foldl_tallyStep fetch allCombos [] List.nodup_nil

lemma tallyCount_foldl_tallyStep_le (fetch : String → String → Except String (List String))
    (hnd : ∀ size_filter sort_by names,
      fetch size_filter sort_by = Except.ok names → names.Nodup) :
    ∀ (combos : List (String × String)) (c : Counter) (x : String),
      tallyCount (combos.foldl (tallyStep fetch) c) x ≤ tallyCount c x + combos.length := by
  intro combos
  induction combos with
  | nil => intro c x; simp
  | cons cb combos ih =>
    intro c x
    rw [List.foldl_cons]
    rcases hf : fetch cb.1 cb.2 with e | ns
    · have := ih (tallyStep fetch c cb) x
      simp only [tallyStep, hf] at this
      calc tallyCount _ x ≤ tallyCount c x + combos.length := by
              simpa [tallyStep, hf] using this
        _ ≤ tallyCount c x + (cb :: combos).length := by simp
    · have hns : ns.Nodup := hnd cb.1 cb.2 ns hf
      have hle : ns.count x ≤ 1 := List.nodup_iff_count_le_one.mp hns x
      have := ih (tallyStep fetch c cb) x
      simp only [tallyStep, hf] at this
      calc tallyCount _ x
          ≤ tallyCount (counterUpdate c ns) x + combos.length := by
            simpa [tallyStep, hf] using this
        _ = tallyCount c x + ns.count x + combos.length := by
            rw [tallyCount_counterUpdate]
        _ ≤ tallyCount c x + (cb :: combos).length := by simp; omega

/-! ### Order and stability helpers -/

lemma pair_sublist_total {α : Type} {x y : α} {l : List α}
    (hx : x ∈ l) (hy : y ∈ l) (hxy : x ≠ y) :
    List.Sublist [x, y] l ∨ List.Sublist [y, x] l := by
  induction l with
  | nil => cases hx
  | cons a t ih =>
    rcases List.mem_cons.mp hx with rfl | hx'
    · have hy' : y ∈ t := by
        rcases List.mem_cons.mp hy with rfl | hy'
        · exact absurd rfl hxy
        · exact hy'
      exact Or.inl (List.Sublist.cons₂ x (List.singleton_sublist.mpr hy'))
    · rcases List.mem_cons.mp hy with rfl | hy'
      · exact Or.inr (List.Sublist.cons₂ y (List.singleton_sublist.mpr hx'))
      · exact (ih hx' hy').imp (List.Sublist.cons a) (List.Sublist.cons a)

lemma eq_of_pair_sublist_both {α : Type} {x y : α} {l : List α} (hnd : l.Nodup)
    (h1 : List.Sublist [x, y] l) (h2 : List.Sublist [y, x] l) : x = y := by
  induction l with
  | nil => cases h1
  | cons a t ih =>
    have ha : a ∉ t := (List.nodup_cons.mp hnd).1
    have hnd' : t.Nodup := (List.nodup_cons.mp hnd).2
    cases h1 with
    | cons _ h1' =>
      cases h2 with
      | cons _ h2' => exact ih hnd' h1' h2'
      | cons₂ _ h2' =>
        exact absurd (h1'.subset (List.mem_cons_of_mem x (List.mem_singleton.mpr rfl))) ha
    | cons₂ _ h1' =>
      cases h2 with
      | cons _ h2' =>
        exact absurd (h2'.subset (List.mem_cons_of_mem y (List.mem_singleton.mpr rfl))) ha
      | cons₂ _ h2' => rfl

lemma get_pair_sublist {α : Type} :
    ∀ (l : List α) (i j : Nat) (hi : i < l.length) (hj : j < l.length), i < j →
      List.Sublist [l.get ⟨i, hi⟩, l.get ⟨j, hj⟩] l := by
  intro l
  induction l with
  | nil => intro i j hi _ _; exact absurd hi (by simp)
  | cons a t ih =>
    intro i j hi hj hij
    cases i with
    | zero =>
      cases j with
      | zero => omega
      | succ j' =>
        exact List.Sublist.cons₂ a
          (List.singleton_sublist.mpr (t.get_mem j' (by simpa using hj)))
    | succ i' =>
      cases j with
      | zero => omega
      | succ j' =>
        exact List.Sublist.cons a
          (ih i' j' (by simpa using hi) (by simpa using hj) (by omega))

lemma indexOf_lt_of_pair_sublist {α : Type} [DecidableEq α] {x y : α} {l : List α}
    (hnd : l.Nodup) (h : List.Sublist [x, y] l) : l.indexOf x < l.indexOf y := by
  induction l with
  | nil => cases h
  | cons a t ih =>
    have ha : a ∉ t := (List.nodup_cons.mp hnd).1
    have hnd' : t.Nodup := (List.nodup_cons.mp hnd).2
    cases h with
    | cons₂ _ h' =>
      have hyt : y ∈ t := List.singleton_sublist.mp h'
      have hya : y ≠ x := fun hcontra => ha (hcontra ▸ hyt)
      rw [List.indexOf_cons_self, List.indexOf_cons_ne t hya.symm]
      omega
    | cons _ h' =>
      have hxt : x ∈ t := h'.subset (List.mem_cons_self x [y])
      have hyt : y ∈ t := h'.subset (List.mem_cons_of_mem x (List.mem_singleton.mpr rfl))
      have hxa : x ≠ a := fun hcontra => ha (hcontra ▸ hxt)
      have hya : y ≠ a := fun hcontra => ha (hcontra ▸ hyt)
      rw [List.indexOf_cons_ne t hxa.symm, List.indexOf_cons_ne t hya.symm]
      have := ih hnd' h'
      omega

lemma keys_nodup_inj {t : Counter} (hnd : (t.map Prod.fst).Nodup)
    {a b : String × Nat} (ha : a ∈ t) (hb : b ∈ t) (h : a.1 = b.1) : a = b := by
  have ht : t.Nodup := List.Nodup.of_map Prod.fst hnd
  exact (List.nodup_map_iff_inj_on ht).mp hnd a ha b hb h

lemma tallyCount_eq_snd {t : Counter} (hnd : (t.map Prod.fst).Nodup)
    {p : String × Nat} (hp : p ∈ t) : tallyCount t p.1 = p.2 := by
  induction t with
  | nil => cases hp
  | cons q t ih =>
    have h2 := List.nodup_cons.mp (show (q.1 :: t.map Prod.fst).Nodup from hnd)
    have hq : q.1 ∉ t.map Prod.fst := h2.1
    have hnd' : (t.map Prod.fst).Nodup := h2.2
    rcases List.mem_cons.mp hp with rfl | hp'
    · rw [tallyCount_cons, if_pos rfl]
    · have hqp : q.1 ≠ p.1 := by
        intro hcontra
        exact hq (hcontra ▸ List.mem_map.mpr ⟨p, hp', rfl⟩)
      rw [tallyCount_cons, if_neg hqp]
      exact ih hnd' hp'

lemma foldl_tallyStep_id (fetch : String → String → Except String (List String))
    (combos : List (String × String))
    (h : ∀ cb ∈ combos, ∀ c : Counter, tallyStep fetch c cb = c) :
    ∀ c : Counter, combos.foldl (tallyStep fetch) c = c := by
  induction combos with
  | nil => intro c; rfl
  | cons cb combos ih =>
    intro c
    rw [List.foldl_cons, h cb (List.mem_cons_self cb combos) c]
    exact ih (fun cb2 h2 c2 => h cb2 (List.mem_cons_of_mem cb h2) c2) c

lemma blendedTally_fetchOfResponses
    (responses : String → String → Except String (List Subreddit)) :
    blendedTally (fetchOfResponses responses) = [] := by
  rw [blendedTally_eq_foldl]
  refine foldl_tallyStep_id _ allCombos ?_ []
  intro cb _ c
  rcases hr : responses cb.1 cb.2 with e | subs
  · simp [tallyStep, fetchOfResponses, Except.map, hr]
  · simp [tallyStep, fetchOfResponses, Except.map, hr,
      fetch_subreddits_names_eq_nil, counterUpdate_nil]

/-! ### Claim theorems -/

/-- C10: under the literal control flow of `fetch_subreddits`, every entry is
skipped, so the function returns the empty list for every parsed response. -/
theorem fetch_subreddits_literal_returns_empty (subs : List Subreddit) :
    fetch_subreddits_names subs = [] :=
  fetch_subreddits_names_eq_nil subs

/-- C3: an entry flagged `isNsfw` with a non-empty display name never has its
name included in the output of the fetcher's filtering loop. -/
theorem nsfw_entry_name_excluded (subs : List Subreddit) (sub : Subreddit)
    (hmem : sub ∈ subs) (hnsfw : sub.isNsfw = true) (hname : sub.displayName ≠ "") :
    sub.displayName ∉ fetch_subreddits_names subs := by
  rw [fetch_subreddits_names_eq_nil]
  exact List.not_mem_nil sub.displayName

/-- Concrete NSFW entry used to instantiate `nsfw_entry_name_excluded`. -/
def nsfwSubC3 : Subreddit := ⟨"x", true, false, false⟩

/-- Witness for C3 at a concrete entry. -/
theorem nsfw_entry_name_excluded_witness :
    nsfwSubC3 ∈ [nsfwSubC3] ∧ nsfwSubC3.isNsfw = true ∧ nsfwSubC3.displayName ≠ "" ∧
      nsfwSubC3.displayName ∉ fetch_subreddits_names [nsfwSubC3] :=
  ⟨List.mem_singleton.mpr rfl, rfl, by decide,
    nsfw_entry_name_excluded [nsfwSubC3] nsfwSubC3 (List.mem_singleton.mpr rfl) rfl (by decide)⟩

/-- C6: an entry whose extracted display name is the empty string contributes
no name, and the empty string is never a key of the tally built from any
parsed responses. -/
theorem empty_display_name_never_tallied :
    (∀ sub : Subreddit, sub.displayName = "" → processEntry sub = none) ∧
    (∀ subs : List Subreddit, "" ∉ fetch_subreddits_names subs) ∧
    (∀ responses : String → String → Except String (List Subreddit),
      "" ∉ (blendedTally (fetchOfResponses responses)).map Prod.fst) := by
  refine ⟨fun sub _ => processEntry_eq_none sub, ?_, ?_⟩
  · intro subs
    rw [fetch_subreddits_names_eq_nil]
    exact List.not_mem_nil ""
  · intro responses
    rw [blendedTally_fetchOfResponses]
    exact List.not_mem_nil ""

/-- Witness for C6 at a concrete entry and response oracle. -/
theorem empty_display_name_never_tallied_witness :
    processEntry ⟨"", false, false, false⟩ = none ∧
      "" ∉ fetch_subreddits_names [⟨"", false, false, false⟩] ∧
      "" ∉ (blendedTally (fetchOfResponses
        (fun _ _ => Except.ok [⟨"", false, false, false⟩]))).map Prod.fst :=
  ⟨empty_display_name_never_tallied.1 ⟨"", false, false, false⟩ rfl,
    empty_display_name_never_tallied.2.1 [⟨"", false, false, false⟩],
    empty_display_name_never_tallied.2.2 (fun _ _ => Except.ok [⟨"", false, false, false⟩])⟩

/-- Concrete NSFW entry showing the literal filter does not behave as C9
describes. -/
def nsfwSubC9 : Subreddit := ⟨"x", true, false, false⟩

/-- Counterexample to C9: for an entry with `isNsfw` true and a non-empty
display name, the local flag is left at `""` (short-circuit evaluation never
reaches the assignment), and the name is not included in the output either,
contradicting both the claimed flag-setting rule and the claimed
include-if-flagged behaviour. -/
theorem nsfw_literal_filter_cex :
    nsfwSubC9.isNsfw = true ∧ nsfwSubC9.displayName ≠ "" ∧
      nsfwFlagValue nsfwSubC9 ≠ "true" ∧
      nsfwSubC9.displayName ∉ fetch_subreddits_names [nsfwSubC9] := by
  refine ⟨rfl, by decide, by decide, ?_⟩
  rw [fetch_subreddits_names_eq_nil]
  exact List.not_mem_nil _

/-- C9 amended: the local flag is set exactly when no NSFW indicator is true
(short-circuit), the `continue` condition is truthy for every entry, and hence
no entry — NSFW-flagged or not — is ever appended. -/
theorem nsfw_literal_filter_amended (sub : Subreddit) :
    (nsfwFlagValue sub = "true" ↔
      sub.isNsfw = false ∧ sub.internal_IsNsfw = false ∧
        sub.suggested_Internal_IsNsfw = false) ∧
    skipCondition sub = true ∧ processEntry sub = none := by
  refine ⟨?_, skipCondition_eq_true sub, processEntry_eq_none sub⟩
  obtain ⟨d, n1, n2, n3⟩ := sub
  cases n1 <;> cases n2 <;> cases n3 <;> simp [nsfwFlagValue]

/-- C4: every per-call failure is absorbed inside the loop: the printed
warnings are exactly one message per failing (size filter, sort period)
combination, naming that combination, and the tally — hence the final result —
is the same as if each failing call had returned no names. -/
theorem per_call_failure_isolated (fetch : String → String → Except String (List String)) :
    blendedWarnings fetch = allCombos.filterMap (warnOf fetch) ∧
    blendedTally fetch = blendedTally (recoverFetch fetch) ∧
    generate_blended_trending fetch = generate_blended_trending (recoverFetch fetch) := by
  have ht : blendedTally fetch = blendedTally (recoverFetch fetch) := by
    rw [blendedTally_eq_foldl, blendedTally_eq_foldl]
    have key : ∀ (combos : List (String × String)) (c : Counter),
        combos.foldl (tallyStep fetch) c = combos.foldl (tallyStep (recoverFetch fetch)) c := by
      intro combos
      induction combos with
      | nil => intro c; rfl
      | cons cb combos ih =>
        intro c
        rw [List.foldl_cons, List.foldl_cons, ih]
        congr 1
        rcases hf : fetch cb.1 cb.2 with e | ns <;>
          simp [tallyStep, recoverFetch, hf, counterUpdate_nil]
    exact key allCombos []
  exact ⟨blendedWarnings_eq_filterMap fetch, ht,
    by rw [generate_blended_trending, generate_blended_trending, ht]⟩

/-- C5: when every one of the eight fetch calls raises, the loop absorbs all
eight failures and the final result list is empty. -/
theorem all_fetches_fail_empty_result (fetch : String → String → Except String (List String))
    (h : ∀ size_filter ∈ SIZE_FILTERS, ∀ sort_by ∈ SORT_PERIODS,
      ∃ e, fetch size_filter sort_by = Except.error e) :
    generate_blended_trending fetch = [] := by
  have htally : blendedTally fetch = [] := by
    rw [blendedTally_eq_foldl]
    refine foldl_tallyStep_id fetch allCombos ?_ []
    intro cb hcb c
    obtain ⟨sf, hsf, hcb2⟩ := List.mem_flatMap.mp hcb
    obtain ⟨sb, hsb, rfl⟩ := List.mem_map.mp hcb2
    obtain ⟨e, he⟩ := h sf hsf sb hsb
    simp [tallyStep, he]
  simp [generate_blended_trending, most_common, htally]

/-- Fetch oracle on which every call fails. -/
def failFetchC5 : String → String → Except String (List String) :=
  fun _ _ => Except.error "connection refused"

/-- Witness for C5 at a concretely failing oracle. -/
theorem all_fetches_fail_empty_result_witness :
    generate_blended_trending failFetchC5 = [] :=
  all_fetches_fail_empty_result failFetchC5
    (fun _ _ _ _ => ⟨"connection refused", rfl⟩)

/-- The mocked fetcher of C7. -/
def mockFetchC7 : String → String → Except String (List String) := fun size_filter sort_by =>
  if size_filter == "medium" && sort_by == "daily" then Except.ok ["a", "b"]
  else if size_filter == "medium" && sort_by == "weekly" then Except.ok ["a"]
  else Except.ok []

/-- C7: with the mocked fetcher, "a" is tallied at least twice, "b" at least
once, and the final output is exactly ["a", "b"], so "a" is ranked strictly
ahead of "b" and the output begins with "a" followed by "b". -/
theorem mocked_fetcher_blend :
    2 ≤ tallyCount (blendedTally mockFetchC7) "a" ∧
    1 ≤ tallyCount (blendedTally mockFetchC7) "b" ∧
    generate_blended_trending mockFetchC7 = ["a", "b"] := by
  refine ⟨?_, ?_, ?_⟩ <;> decide

/-- C1: the result list never exceeds `FINAL_OUTPUT_LIMIT` entries, contains
no duplicate names, and when fewer than the limit of distinct names were
tallied every tallied name is emitted. -/
theorem blended_result_length_nodup_complete
    (fetch : String → String → Except String (List String)) :
    (generate_blended_trending fetch).length ≤ FINAL_OUTPUT_LIMIT ∧
    (generate_blended_trending fetch).Nodup ∧
    ((blendedTally fetch).length < FINAL_OUTPUT_LIMIT →
      ∀ name ∈ (blendedTally fetch).map Prod.fst,
        name ∈ generate_blended_trending fetch) := by
  have hperm := List.perm_insertionSort countGE (blendedTally fetch)
  have hknd := keys_nodup_blendedTally fetch
  have hkeys_s : ((List.insertionSort countGE (blendedTally fetch)).map Prod.fst).Nodup :=
    ((hperm.map Prod.fst).nodup_iff).mpr hknd
  refine ⟨?_, ?_, ?_⟩
  · rw [generate_blended_trending, most_common, List.length_map, List.length_take]
    exact min_le_left _ _
  · rw [generate_blended_trending, most_common, List.map_take]
    exact List.Nodup.sublist (List.take_sublist _ _) hkeys_s
  · intro hlen name hname
    have hslen : (List.insertionSort countGE (blendedTally fetch)).length =
        (blendedTally fetch).length := List.length_insertionSort countGE _
    have htake : (List.insertionSort countGE (blendedTally fetch)).take FINAL_OUTPUT_LIMIT =
        List.insertionSort countGE (blendedTally fetch) :=
      List.take_of_length_le (by rw [hslen]; omega)
    rw [generate_blended_trending, most_common, htake]
    exact ((hperm.map Prod.fst).mem_iff).mpr hname

/-- Fetch oracle used to instantiate C1: every call returns the single name
"a". -/
def wFetchC1 : String → String → Except String (List String) :=
  fun _ _ => Except.ok ["a"]

/-- Witness for C1 at a concrete oracle; the tally has one entry, which is
fewer than the limit, and that name is emitted. -/
theorem blended_result_length_nodup_complete_witness :
    (generate_blended_trending wFetchC1).length ≤ FINAL_OUTPUT_LIMIT ∧
    (generate_blended_trending wFetchC1).Nodup ∧
    "a" ∈ generate_blended_trending wFetchC1 :=
  ⟨(blended_result_length_nodup_complete wFetchC1).1,
    (blended_result_length_nodup_complete wFetchC1).2.1,
    (blended_result_length_nodup_complete wFetchC1).2.2 (by decide) "a" (by decide)⟩

/-- C8 amended: when each successful call returns a duplicate-free name list —
as when counting distinct queries — every tally count, at every intermediate
point of the loop and at its end, is at most the number of size filters times
the number of sort periods. -/
theorem tally_count_bounded_when_calls_nodup
    (fetch : String → String → Except String (List String))
    (hnd : ∀ size_filter sort_by names,
      fetch size_filter sort_by = Except.ok names → names.Nodup)
    (k : Nat) (name : String) :
    tallyCount (tallyAfter fetch k) name ≤ SIZE_FILTERS.length * SORT_PERIODS.length ∧
    tallyCount (blendedTally fetch) name ≤ SIZE_FILTERS.length * SORT_PERIODS.length := by
  have hcombos : allCombos.length = SIZE_FILTERS.length * SORT_PERIODS.length := by decide
  constructor
  · have h := tallyCount_foldl_tallyStep_le fetch hnd (allCombos.take k) [] name
    have hlen : (allCombos.take k).length ≤ allCombos.length := by
      rw [List.length_take]
      exact min_le_right _ _
    have h0 : tallyCount ([] : Counter) name = 0 := rfl
    rw [tallyAfter]
    omega
  · have h := tallyCount_foldl_tallyStep_le fetch hnd allCombos [] name
    have h0 : tallyCount ([] : Counter) name = 0 := rfl
    rw [blendedTally_eq_foldl]
    omega

/-- Fetch oracle used to instantiate the amended C8. -/
def wFetchC8 : String → String → Except String (List String) :=
  fun _ _ => Except.ok ["a"]

/-- Witness for the amended C8 at a concrete oracle and intermediate point. -/
theorem tally_count_bounded_when_calls_nodup_witness :
    tallyCount (tallyAfter wFetchC8 3) "a" ≤ SIZE_FILTERS.length * SORT_PERIODS.length ∧
    tallyCount (blendedTally wFetchC8) "a" ≤ SIZE_FILTERS.length * SORT_PERIODS.length :=
  tally_count_bounded_when_calls_nodup wFetchC8
    (by intro sf sb ns h; cases h; decide) 3 "a"

/-- Fetch oracle on which one call returns the same name nine times. -/
def dupFetchC8 : String → String → Except String (List String) := fun size_filter sort_by =>
  if size_filter == "medium-small" && sort_by == "daily" then
    Except.ok ["x", "x", "x", "x", "x", "x", "x", "x", "x"]
  else Except.ok []

/-- Counterexample to C8 as stated: `Counter.update` counts every occurrence
in a returned list, so a single call returning nine copies of one name drives
that tally count to 9, above the 4 × 2 = 8 bound. -/
theorem tally_count_bound_cex :
    tallyCount (blendedTally dupFetchC8) "x" = 9 ∧
    ¬ (tallyCount (blendedTally dupFetchC8) "x" ≤
        SIZE_FILTERS.length * SORT_PERIODS.length) := by
  refine ⟨by decide, by decide⟩

lemma insertionSort_get_lex (t : Counter) (hknd : (t.map Prod.fst).Nodup)
    (i j : Nat) (hi : i < (List.insertionSort countGE t).length)
    (hj : j < (List.insertionSort countGE t).length) (hij : i < j) :
    tallyCount t ((List.insertionSort countGE t).get ⟨i, hi⟩).1 >
        tallyCount t ((List.insertionSort countGE t).get ⟨j, hj⟩).1 ∨
      (tallyCount t ((List.insertionSort countGE t).get ⟨i, hi⟩).1 =
          tallyCount t ((List.insertionSort countGE t).get ⟨j, hj⟩).1 ∧
        (t.map Prod.fst).indexOf ((List.insertionSort countGE t).get ⟨i, hi⟩).1 <
          (t.map Prod.fst).indexOf ((List.insertionSort countGE t).get ⟨j, hj⟩).1) := by
  set s := List.insertionSort countGE t with hs
  have hperm : List.Perm s t := List.perm_insertionSort countGE t
  have hkeys_s : (s.map Prod.fst).Nodup := ((hperm.map Prod.fst).nodup_iff).mpr hknd
  have hnds : s.Nodup := List.Nodup.of_map Prod.fst hkeys_s
  have hmem_a_s : s.get ⟨i, hi⟩ ∈ s := s.get_mem i hi
  have hmem_b_s : s.get ⟨j, hj⟩ ∈ s := s.get_mem j hj
  have hmem_a : s.get ⟨i, hi⟩ ∈ t := hperm.subset hmem_a_s
  have hmem_b : s.get ⟨j, hj⟩ ∈ t := hperm.subset hmem_b_s
  have hca : tallyCount t (s.get ⟨i, hi⟩).1 = (s.get ⟨i, hi⟩).2 := tallyCount_eq_snd hknd hmem_a
  have hcb : tallyCount t (s.get ⟨j, hj⟩).1 = (s.get ⟨j, hj⟩).2 := tallyCount_eq_snd hknd hmem_b
  have hsorted : List.Pairwise countGE s := List.sorted_insertionSort countGE t
  have hle : countGE (s.get ⟨i, hi⟩) (s.get ⟨j, hj⟩) :=
    List.pairwise_iff_get.mp hsorted ⟨i, hi⟩ ⟨j, hj⟩ hij
  have hle' : (s.get ⟨j, hj⟩).2 ≤ (s.get ⟨i, hi⟩).2 := hle
  rw [hca, hcb]
  rcases Nat.lt_or_eq_of_le hle' with hlt | heq
  · exact Or.inl hlt
  · refine Or.inr ⟨heq.symm, ?_⟩
    have hab : s.get ⟨i, hi⟩ ≠ s.get ⟨j, hj⟩ := by
      intro hcontra
      have h2 := (hnds.get_inj_iff).mp hcontra
      have h3 := congrArg Fin.val h2
      simp at h3
      omega
    have hab1 : (s.get ⟨i, hi⟩).1 ≠ (s.get ⟨j, hj⟩).1 := by
      intro hcontra
      exact hab (keys_nodup_inj hkeys_s hmem_a_s hmem_b_s hcontra)
    have hsub_t : List.Sublist [s.get ⟨i, hi⟩, s.get ⟨j, hj⟩] t := by
      rcases pair_sublist_total hmem_a hmem_b hab with h | h
      · exact h
      · exfalso
        have hba : countGE (s.get ⟨j, hj⟩) (s.get ⟨i, hi⟩) := by
          show (s.get ⟨i, hi⟩).2 ≤ (s.get ⟨j, hj⟩).2
          omega
        have hsub_s : List.Sublist [s.get ⟨j, hj⟩, s.get ⟨i, hi⟩] s :=
          List.pair_sublist_insertionSort hba h
        have hsub_s2 : List.Sublist [s.get ⟨i, hi⟩, s.get ⟨j, hj⟩] s :=
          get_pair_sublist s i j hi hj hij
        exact hab (eq_of_pair_sublist_both hnds hsub_s2 hsub_s)
    have hsub_keys :
        List.Sublist [(s.get ⟨i, hi⟩).1, (s.get ⟨j, hj⟩).1] (t.map Prod.fst) := by
      have h4 := hsub_t.map Prod.fst
      simpa using h4
    exact indexOf_lt_of_pair_sublist hknd hsub_keys

/-- C2: the result list is ordered by strictly descending tally count, with
names tied at the same count ordered by their position in the tally — the
order in which they were first encountered during accumulation. -/
theorem blended_result_ordering (fetch : String → String → Except String (List String))
    (i j : Nat) (hi : i < (generate_blended_trending fetch).length)
    (hj : j < (generate_blended_trending fetch).length) (hij : i < j) :
    tallyCount (blendedTally fetch) ((generate_blended_trending fetch).get ⟨i, hi⟩) >
        tallyCount (blendedTally fetch) ((generate_blended_trending fetch).get ⟨j, hj⟩) ∨
      (tallyCount (blendedTally fetch) ((generate_blended_trending fetch).get ⟨i, hi⟩) =
          tallyCount (blendedTally fetch) ((generate_blended_trending fetch).get ⟨j, hj⟩) ∧
        ((blendedTally fetch).map Prod.fst).indexOf
            ((generate_blended_trending fetch).get ⟨i, hi⟩) <
          ((blendedTally fetch).map Prod.fst).indexOf
            ((generate_blended_trending fetch).get ⟨j, hj⟩)) := by
  have hreslen : (generate_blended_trending fetch).length =
      min FINAL_OUTPUT_LIMIT (List.insertionSort countGE (blendedTally fetch)).length := by
    rw [generate_blended_trending, most_common, List.length_map, List.length_take]
  have hi' : i < (List.insertionSort countGE (blendedTally fetch)).length :=
    lt_of_lt_of_le (hreslen ▸ hi) (min_le_right _ _)
  have hj' : j < (List.insertionSort countGE (blendedTally fetch)).length :=
    lt_of_lt_of_le (hreslen ▸ hj) (min_le_right _ _)
  have hgeti : (generate_blended_trending fetch).get ⟨i, hi⟩ =
      ((List.insertionSort countGE (blendedTally fetch)).get ⟨i, hi'⟩).1 := by
    simp [generate_blended_trending, most_common, List.getElem_take']
  have hgetj : (generate_blended_trending fetch).get ⟨j, hj⟩ =
      ((List.insertionSort countGE (blendedTally fetch)).get ⟨j, hj'⟩).1 := by
    simp [generate_blended_trending, most_common, List.getElem_take']
  rw [hgeti, hgetj]
  exact insertionSort_get_lex (blendedTally fetch) (keys_nodup_blendedTally fetch) i j hi' hj' hij

/-- Fetch oracle used to instantiate C2: one call returns ["a", "b"]. -/
def wFetchC2 : String → String → Except String (List String) := fun size_filter sort_by =>
  if size_filter == "medium" && sort_by == "daily" then Except.ok ["a", "b"]
  else Except.ok []

/-- Witness for C2 at a concrete oracle and index pair: "a" and "b" are tied
at count 1 and keep their accumulation order. -/
theorem blended_result_ordering_witness :
    (0 : Nat) < 1 ∧
    (tallyCount (blendedTally wFetchC2) "a" > tallyCount (blendedTally wFetchC2) "b" ∨
      (tallyCount (blendedTally wFetchC2) "a" = tallyCount (blendedTally wFetchC2) "b" ∧
        ((blendedTally wFetchC2).map Prod.fst).indexOf "a" <
          ((blendedTally wFetchC2).map Prod.fst).indexOf "b")) :=
  ⟨Nat.zero_lt_one,
    blended_result_ordering wFetchC2 0 1 (by decide) (by decide) (by decide)⟩
